import Mathlib

/-!
Shallow embedding of the diffpy feature-computation engine
(`src/diffpy/features.py`) and verification of the frozen claims about it.

Conventions used throughout:
* A trajectory with `n + 1` frames is a pair of coordinate functions
  `x y : ℕ → ℝ` read at indices `0 .. n` (`x[-1]` in the source is `x n`).
  An ensemble is `xs ys : ℕ → ℕ → ℝ` (frame index first, column = trajectory).
* The `Except PyErr` codomain models the Python exception channel: `Except.ok`
  is a normal return, `Except.error` a raised exception.
* NumPy floating-point arithmetic on finite operands only produces a
  non-finite value (inf/nan) through division by zero; such results are
  modelled by `none : Option ℝ` (`npdiv`).  Where a claim never exercises a
  zero denominator the plain real division of Lean is used directly.
-/

open Finset

namespace Diffpy

/-- Exceptions a Python-level call in `features.py` can raise. -/
inductive PyErr where
  | fitNonConvergence : PyErr
  | geomDegeneracy : PyErr
  | domainError : PyErr
  | nameError : PyErr
  deriving DecidableEq

/-- NumPy float division of finite operands: a zero denominator yields a
non-finite result (inf or nan, not an exception), modelled as `none`. -/
noncomputable def npdiv (a b : ℝ) : Option ℝ :=
  if b = 0 then none else some (a / b)

/-- Squared step displacements `np.diff(x)**2 + np.diff(y)**2`, entry `i`. -/
noncomputable def sqDisp (x y : ℕ → ℝ) (i : ℕ) : ℝ :=
  (x (i + 1) - x i) ^ 2 + (y (i + 1) - y i) ^ 2

/-- `efficiency(x, y)` (features.py 238-241) on a trajectory with `n + 1`
frames: squared net displacement over total squared step displacement.  The
body raises nothing; the quotient is non-finite iff the denominator is zero. -/
noncomputable def efficiency (n : ℕ) (x y : ℕ → ℝ) : Except PyErr (Option ℝ) :=
  Except.ok (npdiv ((x n - x 0) ^ 2 + (y n - y 0) ^ 2) (∑ i ∈ range n, sqDisp x y i))

/-- `efficiencies(xs, ys)` (features.py 244-247): the same arithmetic,
vectorized over columns; entry `j` is the value for trajectory `j`. -/
noncomputable def efficiencies (n : ℕ) (xs ys : ℕ → ℕ → ℝ) : ℕ → Option ℝ :=
  fun j =>
    npdiv ((xs n j - xs 0 j) ^ 2 + (ys n j - ys 0 j) ^ 2)
      (∑ i ∈ range n, sqDisp (fun t => xs t j) (fun t => ys t j) i)

/-- `straight(x, y)` (features.py 250-253): net displacement over path length. -/
noncomputable def straight (n : ℕ) (x y : ℕ → ℝ) : Except PyErr (Option ℝ) :=
  Except.ok (npdiv (Real.sqrt ((x n - x 0) ^ 2 + (y n - y 0) ^ 2))
    (∑ i ∈ range n, Real.sqrt (sqDisp x y i)))

/-- `np.max` of `f 0 .. f (n-1)`; the source only applies it to nonempty step
lists (`n ≥ 1`), where this fold is that maximum. -/
noncomputable def npmax (n : ℕ) (f : ℕ → ℝ) : ℝ :=
  (List.range n).foldl (fun a i => max a (f i)) (f 0)

/-- `bound(x, y, M)` (features.py 214-224); `K` is `M.shape[0]`.  The division
producing the boundedness `bd` is `npdiv` (zero `r` gives a non-finite value). -/
noncomputable def bound (n : ℕ) (x y : ℕ → ℝ) (K : ℕ) (M : ℕ → ℝ) :
    Option ℝ × Option ℝ :=
  let D := (M 1 - M 0) / 4
  let r := Real.sqrt (npmax n (sqDisp x y)) / 2
  let bd := npdiv (D * K) (r ^ 2)
  (bd, bd.map (fun b => 1 - Real.exp (0.2048 - 0.25117 * b)))

/-- `bounds(xs, ys, Ms)` (features.py 227-235), vectorized over columns. -/
noncomputable def bounds (n : ℕ) (xs ys : ℕ → ℕ → ℝ) (K : ℕ) (Ms : ℕ → ℕ → ℝ) :
    (ℕ → Option ℝ) × (ℕ → Option ℝ) :=
  let Ds := fun j => (Ms 1 j - Ms 0 j) / 4
  let rs := fun j => Real.sqrt (npmax n (sqDisp (fun t => xs t j) (fun t => ys t j))) / 2
  let bds := fun j => npdiv (Ds j * K) (rs j ^ 2)
  (bds, fun j => (bds j).map (fun b => 1 - Real.exp (0.2048 - 0.25117 * b)))

/-- `msdRatios(Ms)` (features.py 291-305).  In 0-based indices `a`, `b`
(1-based lags `a+1`, `b+1`) and trajectory `t`: the meshgrid layout gives
`Mratio[a,b] = Ms[a,t]/Ms[b,t] - (a+1)/(b+1)`, then the mask `n2x > n2y`
zeroes every entry with `a > b`. -/
noncomputable def msdRatios (Ms : ℕ → ℕ → ℝ) : ℕ → ℕ → ℕ → ℝ :=
  fun a b t =>
    let n2x : ℝ := (a : ℝ) + 1
    let n2y : ℝ := (b : ℝ) + 1
    let ratio := Ms a t / Ms b t - n2x / n2y
    if n2x > n2y then 0 else ratio

/-- `msdRatio(M)` (features.py 279-288).  The body computes the local variable
`Mratio`, but the return statement reads `MRatio`, a name that is never
defined: every call raises `NameError` after the arithmetic completes. -/
noncomputable def msdRatio (M : ℕ → ℝ) : Except PyErr (ℕ → ℕ → ℝ) :=
  let _Mratio : ℕ → ℕ → ℝ := fun a b =>
    if ((a : ℝ) + 1) > ((b : ℝ) + 1) then 0
    else M a / M b - ((a : ℝ) + 1) / ((b : ℝ) + 1)
  Except.error PyErr.nameError

/-- C4: the claim says `msdRatio` succeeds on every well-formed finite MSD input
with at least one row.  In fact the source returns the undefined name `MRatio`
(line 288; the computed variable is `Mratio`), so every call — here the
well-formed two-lag profile `M = [1, 4]` — raises `NameError` instead of
returning the ratio matrix. -/
theorem msdRatio_always_raises_nameError :
    msdRatio (fun a => if a = 0 then (1 : ℝ) else 4) = Except.error PyErr.nameError := rfl

/-- C3: for an MSD matrix with (finite) positive entries, the batch
MSD-consistency matrix satisfies, with 1-based lags `i+1 ≤ j+1`:
`R[i,j,t] = Ms[i,t]/Ms[j,t] - (i+1)/(j+1)`, and `R[i,j,t] = 0` when `i > j`. -/
theorem msdRatios_spec (Ms : ℕ → ℕ → ℝ) (_hpos : ∀ a t, 0 < Ms a t) (i j t : ℕ) :
    (i ≤ j → msdRatios Ms i j t = Ms i t / Ms j t - ((i : ℝ) + 1) / ((j : ℝ) + 1)) ∧
    (j < i → msdRatios Ms i j t = 0) := by
  constructor
  · intro hij
    have hc : ¬ ((i : ℝ) + 1 > (j : ℝ) + 1) := by
      push_neg
      have : (i : ℝ) ≤ (j : ℝ) := by exact_mod_cast hij
      linarith
    simp only [msdRatios, if_neg hc]
  · intro hji
    have hc : ((i : ℝ) + 1 > (j : ℝ) + 1) := by
      have : (j : ℝ) < (i : ℝ) := by exact_mod_cast hji
      linarith
    simp only [msdRatios, if_pos hc]

/-- Witness for C3 at the concrete 2-lag, 1-trajectory matrix `Ms = [[1],[4]]`:
`R[0,1,0] = 1/4 - 1/2` and `R[1,0,0] = 0`. -/
theorem msdRatios_spec_witness :
    msdRatios (fun a _ => if a = 0 then (1 : ℝ) else 4) 0 1 0 = 1 / 4 - 1 / 2 ∧
    msdRatios (fun a _ => if a = 0 then (1 : ℝ) else 4) 1 0 0 = 0 := by
  have hpos : ∀ (a t : ℕ), (0 : ℝ) < if a = 0 then (1 : ℝ) else 4 := by
    intro a t
    by_cases h : a = 0 <;> simp [h]
  constructor
  · have h := (msdRatios_spec (fun a _ => if a = 0 then (1 : ℝ) else 4) hpos 0 1 0).1
      (by norm_num)
    rw [h]
    norm_num
  · exact (msdRatios_spec (fun a _ => if a = 0 then (1 : ℝ) else 4) hpos 1 0 0).2
      (by norm_num)

/-- C9: counterexample — on the stationary 2-frame trajectory `x = y = [0, 0]`
(zero total step displacement) `efficiency` and `straight` do not fail with a
degenerate-path error: each returns normally, with a non-finite (NaN)
quotient. -/
theorem efficiency_straight_stationary_no_error :
    efficiency 1 (fun _ => (0 : ℝ)) (fun _ => 0) = Except.ok none ∧
    straight 1 (fun _ => (0 : ℝ)) (fun _ => 0) = Except.ok none := by
  constructor <;> simp [efficiency, straight, npdiv, sqDisp]

/-- C9 (amended): whenever the total step displacement of a trajectory is zero,
`efficiency` and `straight` return normally with a non-finite (NaN) quotient;
no degenerate-path error is raised. -/
theorem efficiency_straight_zero_total (n : ℕ) (x y : ℕ → ℝ)
    (h : ∑ i ∈ range n, sqDisp x y i = 0) :
    efficiency n x y = Except.ok none ∧ straight n x y = Except.ok none := by
  have hnn : ∀ i ∈ range n, 0 ≤ sqDisp x y i := by
    intro i _
    have := sq_nonneg (x (i + 1) - x i)
    have := sq_nonneg (y (i + 1) - y i)
    simp only [sqDisp]
    linarith
  have hz : ∀ i ∈ range n, sqDisp x y i = 0 :=
    (Finset.sum_eq_zero_iff_of_nonneg hnn).mp h
  constructor
  · simp [efficiency, npdiv, h]
  · have hs : ∑ i ∈ range n, Real.sqrt (sqDisp x y i) = 0 := by
      refine Finset.sum_eq_zero ?_
      intro i hi
      rw [hz i hi, Real.sqrt_zero]
    simp [straight, npdiv, hs]

/-- Witness for C9 (amended) at the stationary 2-frame trajectory. -/
theorem efficiency_straight_zero_total_witness :
    efficiency 1 (fun _ => (1 : ℝ)) (fun _ => 2) = Except.ok none ∧
    straight 1 (fun _ => (1 : ℝ)) (fun _ => 2) = Except.ok none := by
  exact efficiency_straight_zero_total 1 (fun _ => 1) (fun _ => 2)
    (by simp [sqDisp])

/-- C6: batch results agree with the single-trajectory functions column by
column: `efficiencies` at column `j` is the (successfully returned) value of
`efficiency` on column `j` of the coordinate matrices, and both components of
`bounds` at `j` equal the components of `bound` on column `j`. -/
theorem batch_matches_single (n K : ℕ) (xs ys Ms : ℕ → ℕ → ℝ) (j : ℕ) :
    efficiency n (fun t => xs t j) (fun t => ys t j) =
      Except.ok (efficiencies n xs ys j) ∧
    (bounds n xs ys K Ms).1 j =
      (bound n (fun t => xs t j) (fun t => ys t j) K (fun t => Ms t j)).1 ∧
    (bounds n xs ys K Ms).2 j =
      (bound n (fun t => xs t j) (fun t => ys t j) K (fun t => Ms t j)).2 :=
  ⟨rfl, rfl, rfl⟩

/-- Python `range(a, b, s)` for a positive stride `s`. -/
def pyRange (a b s : ℕ) : List ℕ :=
  (List.range ((b - a + s - 1) / s)).map (fun k => a + k * s)

lemma lt_ceilDiv_iff {k m s : ℕ} (hs : 0 < s) : k < (m + s - 1) / s ↔ k * s < m := by
  rw [Nat.lt_iff_add_one_le, Nat.le_div_iff_mul_le hs, Nat.succ_mul]
  generalize k * s = t
  omega

lemma mem_pyRange {a b s : ℕ} (hs : 0 < s) {i : ℕ} :
    i ∈ pyRange a b s ↔ a ≤ i ∧ i < b ∧ (i - a) % s = 0 := by
  simp only [pyRange, List.mem_map, List.mem_range]
  constructor
  · rintro ⟨k, hk, rfl⟩
    have h1 : k * s < b - a := (lt_ceilDiv_iff hs).mp hk
    exact ⟨Nat.le_add_right _ _, by omega, by simp [Nat.add_sub_cancel_left, Nat.mul_mod_left]⟩
  · rintro ⟨h1, h2, h3⟩
    have hdvd : s ∣ (i - a) := Nat.dvd_of_mod_eq_zero h3
    refine ⟨(i - a) / s, ?_, ?_⟩
    · rw [lt_ceilDiv_iff hs, Nat.div_mul_cancel hdvd]
      omega
    · rw [Nat.div_mul_cancel hdvd]
      omega

lemma pyRange_nodup {a b s : ℕ} (hs : 0 < s) : (pyRange a b s).Nodup := by
  refine List.Nodup.map ?_ (List.nodup_range _)
  intro k1 k2 h
  have h1 : a + k1 * s = a + k2 * s := h
  have h2 : k1 * s = k2 * s := by omega
  exact Nat.eq_of_mul_eq_mul_right hs h2

lemma pyRange_nil {a b s : ℕ} (hs : 0 < s) (hba : b ≤ a) : pyRange a b s = [] := by
  have : (b - a + s - 1) / s = 0 := by
    have hba2 : b - a = 0 := by omega
    rw [hba2]
    exact Nat.div_eq_of_lt (by omega)
  simp [pyRange, this]

/-- One pass of a sliding-window loop: write `f i` at index `i` for each `i`
in the index list (the source writes `Ds[i] = ps[0]`, `alphas[i] = ps[1]`). -/
def setAll (f : ℕ → ℝ) (l : List ℕ) (xs : List ℝ) : List ℝ :=
  l.foldl (fun acc i => acc.set i (f i)) xs

lemma setAll_cons (f : ℕ → ℝ) (a : ℕ) (t : List ℕ) (xs : List ℝ) :
    setAll f (a :: t) xs = setAll f t (xs.set a (f a)) := rfl

lemma setAll_length (f : ℕ → ℝ) (l : List ℕ) (xs : List ℝ) :
    (setAll f l xs).length = xs.length := by
  induction l generalizing xs with
  | nil => rfl
  | cons a t ih => rw [setAll_cons, ih, List.length_set]

lemma setAll_getElem?_of_not_mem (f : ℕ → ℝ) (l : List ℕ) :
    ∀ (xs : List ℝ) (i : ℕ), i ∉ l → (setAll f l xs)[i]? = xs[i]? := by
  induction l with
  | nil => intro xs i _; rfl
  | cons a t ih =>
    intro xs i hi
    rw [setAll_cons, ih (xs.set a (f a)) i (fun h => hi (List.mem_cons_of_mem a h))]
    refine List.getElem?_set_ne (fun h => hi ?_)
    rw [h]
    exact List.mem_cons_self i t

lemma setAll_getElem?_of_mem (f : ℕ → ℝ) (l : List ℕ) :
    ∀ (xs : List ℝ) (i : ℕ), l.Nodup → i ∈ l → i < xs.length →
      (setAll f l xs)[i]? = some (f i) := by
  induction l with
  | nil => intro xs i _ hi; cases hi
  | cons a t ih =>
    intro xs i hnd hi hlen
    rw [setAll_cons]
    rcases List.mem_cons.mp hi with rfl | hmem
    · rw [setAll_getElem?_of_not_mem f t _ i (List.nodup_cons.mp hnd).1]
      exact List.getElem?_set_self (by simpa using hlen)
    · exact ih (xs.set a (f a)) i (List.nodup_cons.mp hnd).2 hmem (by simpa using hlen)

lemma foldl_pairSet (fD fA : ℕ → ℝ) (l : List ℕ) (ds as : List ℝ) :
    l.foldl (fun acc i => (acc.1.set i (fD i), acc.2.set i (fA i))) (ds, as) =
      (setAll fD l ds, setAll fA l as) := by
  induction l generalizing ds as with
  | nil => rfl
  | cons a t ih =>
    rw [List.foldl_cons, setAll_cons, setAll_cons]
    exact ih (ds.set a (fD a)) (as.set a (fA a))

/-- `anomModels(MSD, dt, skips)` (features.py 11-29): single-trajectory sliding
window.  `fit xdata ydata` stands for `curve_fit(anom, xdata, ydata, p0=[6,1])`
with the model closed over `dt` (scipy, external collaborator).  `steps` is
`MSD.shape[0] + 1`, `N = linspace(1, steps-1, steps-1)`, both output arrays
have length `steps - 1`, and the loop runs `range(10, steps-1, skips)`. -/
noncomputable def anomModels (fit : List ℝ → List ℝ → ℝ × ℝ) (MSD : List ℝ)
    (skips : ℕ) : List ℝ × List ℝ :=
  let steps := MSD.length + 1
  let N := (List.range (steps - 1)).map (fun k => ((k : ℝ) + 1))
  (pyRange 10 (steps - 1) skips).foldl
    (fun acc i =>
      let ps := fit (N.take i) (MSD.take i)
      (acc.1.set i ps.1, acc.2.set i ps.2))
    (List.replicate (steps - 1) 0, List.replicate (steps - 1) 0)

/-- `anomModelsN(MSD, dt, skips)` (features.py 70-88): batch sliding window.
`steps` is the row count of the MSD matrix and `cols` its trajectory columns
`MSD[:, i]`; the result holds the columns `Ds[:, i]` and `alphas[:, i]` of the
two `(steps, N)` output arrays.  The loop runs `range(10, steps, skips)`. -/
noncomputable def anomModelsN (fit : List ℝ → List ℝ → ℝ × ℝ) (steps : ℕ)
    (cols : List (List ℝ)) (skips : ℕ) : List (List ℝ) × List (List ℝ) :=
  let n := (List.range steps).map (fun k => ((k : ℝ) + 1))
  let per := cols.map (fun c =>
    (pyRange 10 steps skips).foldl
      (fun acc frame =>
        let ps := fit (n.take frame) (c.take frame)
        (acc.1.set frame ps.1, acc.2.set frame ps.2))
      (List.replicate steps 0, List.replicate steps 0))
  (per.map Prod.fst, per.map Prod.snd)

/-- The Python for-loop over trajectory columns with exception propagation: the
first raised exception aborts the whole loop, losing every earlier result. -/
def exceptMapM {α β : Type} (f : α → Except PyErr β) : List α → Except PyErr (List β)
  | [] => Except.ok []
  | a :: t =>
    match f a with
    | Except.error e => Except.error e
    | Except.ok b =>
      match exceptMapM f t with
      | Except.error e => Except.error e
      | Except.ok bs => Except.ok (b :: bs)

lemma exceptMapM_error_of_mem {α β : Type} (f : α → Except PyErr β) (l : List α)
    (a : α) (ha : a ∈ l) (e : PyErr) (hf : f a = Except.error e) :
    ∃ e2, exceptMapM f l = Except.error e2 := by
  induction l with
  | nil => cases ha
  | cons b t ih =>
    rcases List.mem_cons.mp ha with rfl | hmem
    · exact ⟨e, by simp [exceptMapM, hf]⟩
    · cases hfb : f b with
      | error e3 => exact ⟨e3, by simp [exceptMapM, hfb]⟩
      | ok val =>
        obtain ⟨e2, h2⟩ := ih hmem
        exact ⟨e2, by simp [exceptMapM, hfb, h2]⟩

/-- `anomModelN(MSD, dt, frame)` (features.py 50-67): batch fixed-window fit.
`fit` stands for `curve_fit(anom, n[:frame], MSD[:frame,i], p0=[6,1])` (scipy,
external); non-convergence raises `RuntimeError`, and the column loop has no
handler.  `steps` is the MSD row count, `cols` the trajectory columns. -/
noncomputable def anomModelN (fit : List ℝ → List ℝ → Except PyErr (ℝ × ℝ))
    (steps : ℕ) (cols : List (List ℝ)) (frame : ℕ) :
    Except PyErr (List ℝ × List ℝ) :=
  let n := (List.range steps).map (fun k => ((k : ℝ) + 1))
  match exceptMapM (fun c => fit (n.take frame) (c.take frame)) cols with
  | Except.error e => Except.error e
  | Except.ok ps => Except.ok (ps.map Prod.fst, ps.map Prod.snd)

/-- `aspectRatios(x, y)` (features.py 203-211): loops the single-trajectory
`aspectRatio` over columns with no handler.  The per-trajectory computation
(whose `ConvexHull` call raises on degenerate geometry — external scipy code)
is the parameter `ar`. -/
noncomputable def aspectRatios (ar : List ℝ → List ℝ → Except PyErr (ℝ × ℝ))
    (xcols ycols : List (List ℝ)) : Except PyErr (List ℝ × List ℝ) :=
  match exceptMapM (fun p => ar p.1 p.2) (xcols.zip ycols) with
  | Except.error e => Except.error e
  | Except.ok ps => Except.ok (ps.map Prod.fst, ps.map Prod.snd)

lemma anomModels_eq_setAll (fit : List ℝ → List ℝ → ℝ × ℝ) (MSD : List ℝ)
    (skips : ℕ) :
    anomModels fit MSD skips =
      (setAll (fun i => (fit (((List.range MSD.length).map (fun k => ((k : ℝ) + 1))).take i)
          (MSD.take i)).1) (pyRange 10 MSD.length skips) (List.replicate MSD.length 0),
       setAll (fun i => (fit (((List.range MSD.length).map (fun k => ((k : ℝ) + 1))).take i)
          (MSD.take i)).2) (pyRange 10 MSD.length skips) (List.replicate MSD.length 0)) := by
  simp only [anomModels, Nat.add_sub_cancel]
  exact foldl_pairSet _ _ _ _ _

/-- C2: `anomModels` on an MSD profile of length `K` with positive stride
`skips` returns two vectors of length `K`; every window length `i` with
`10 ≤ i < K` that the stride reaches (`(i - 10) % skips = 0`) stores the
fitted `(D, alpha)` of the first-`i`-points fit at output index `i`; entries
below the 10-point minimum stay zero; and a profile of exactly 9 points
yields two all-zero length-9 vectors with no error raised. -/
theorem anomModels_spec (fit : List ℝ → List ℝ → ℝ × ℝ) (MSD : List ℝ) (skips : ℕ)
    (hs : 0 < skips) :
    (anomModels fit MSD skips).1.length = MSD.length ∧
    (anomModels fit MSD skips).2.length = MSD.length ∧
    (∀ i, 10 ≤ i → i < MSD.length → (i - 10) % skips = 0 →
      (anomModels fit MSD skips).1[i]? =
        some (fit (((List.range MSD.length).map (fun k => ((k : ℝ) + 1))).take i)
          (MSD.take i)).1 ∧
      (anomModels fit MSD skips).2[i]? =
        some (fit (((List.range MSD.length).map (fun k => ((k : ℝ) + 1))).take i)
          (MSD.take i)).2) ∧
    (∀ i, i < 10 → i < MSD.length →
      (anomModels fit MSD skips).1[i]? = some 0 ∧
      (anomModels fit MSD skips).2[i]? = some 0) ∧
    (MSD.length = 9 →
      anomModels fit MSD skips = (List.replicate 9 0, List.replicate 9 0)) := by
  rw [anomModels_eq_setAll]
  refine ⟨by simp [setAll_length], by simp [setAll_length], ?_, ?_, ?_⟩
  · intro i h10 hK hmod
    have hmem : i ∈ pyRange 10 MSD.length skips := (mem_pyRange hs).mpr ⟨h10, hK, hmod⟩
    constructor <;>
      exact setAll_getElem?_of_mem _ _ _ _ (pyRange_nodup hs) hmem (by simpa using hK)
  · intro i hlt hK
    have hmem : i ∉ pyRange 10 MSD.length skips := by
      intro hmem
      exact absurd ((mem_pyRange hs).mp hmem).1 (by omega)
    constructor <;>
      · rw [setAll_getElem?_of_not_mem _ _ _ _ hmem]
        exact List.getElem?_replicate_of_lt hK
  · intro h9
    rw [h9, pyRange_nil hs (by omega)]
    rfl

/-- Witness for C2: with a constant stub fit returning `(5, 2)` and stride 1,
a length-12 profile stores the fit at index 10 and zero at index 3, and a
length-9 profile returns two all-zero length-9 vectors. -/
theorem anomModels_spec_witness :
    (anomModels (fun _ _ => ((5 : ℝ), (2 : ℝ))) (List.replicate 12 1) 1).1[10]? =
      some 5 ∧
    (anomModels (fun _ _ => ((5 : ℝ), (2 : ℝ))) (List.replicate 12 1) 1).1[3]? =
      some 0 ∧
    anomModels (fun _ _ => ((5 : ℝ), (2 : ℝ))) (List.replicate 9 1) 1 =
      (List.replicate 9 0, List.replicate 9 0) := by
  have h12 := anomModels_spec (fun _ _ => ((5 : ℝ), (2 : ℝ)))
    (List.replicate 12 1) 1 (by norm_num)
  have h9 := anomModels_spec (fun _ _ => ((5 : ℝ), (2 : ℝ)))
    (List.replicate 9 1) 1 (by norm_num)
  refine ⟨?_, ?_, ?_⟩
  · exact (h12.2.2.1 10 (by norm_num) (by simp) (by norm_num)).1
  · exact (h12.2.2.2.1 3 (by norm_num) (by simp)).1
  · exact h9.2.2.2.2 (by simp)

/-- C10: stride-skipped window lengths stay exactly zero: for `i ≥ 10` with
`(i - 10) % skips ≠ 0`, `anomModels` leaves `Ds[i] = 0` and `alphas[i] = 0`,
and `anomModelsN` leaves row `i` of every trajectory column zero in both
output matrices — indistinguishable from the below-minimum zero fill. -/
theorem stride_skipped_windows_zero (fit : List ℝ → List ℝ → ℝ × ℝ)
    (MSD : List ℝ) (steps : ℕ) (cols : List (List ℝ)) (skips : ℕ) (hs : 0 < skips)
    (i : ℕ) (_h10 : 10 ≤ i) (hmod : (i - 10) % skips ≠ 0) :
    (i < MSD.length →
      (anomModels fit MSD skips).1[i]? = some 0 ∧
      (anomModels fit MSD skips).2[i]? = some 0) ∧
    (i < steps →
      (∀ dcol ∈ (anomModelsN fit steps cols skips).1, dcol[i]? = some 0) ∧
      (∀ acol ∈ (anomModelsN fit steps cols skips).2, acol[i]? = some 0)) := by
  constructor
  · intro hK
    have hmem : i ∉ pyRange 10 MSD.length skips := by
      intro hmem
      exact hmod ((mem_pyRange hs).mp hmem).2.2
    rw [anomModels_eq_setAll]
    constructor <;>
      · rw [setAll_getElem?_of_not_mem _ _ _ _ hmem]
        exact List.getElem?_replicate_of_lt hK
  · intro hsteps
    have hmem : i ∉ pyRange 10 steps skips := by
      intro hmem
      exact hmod ((mem_pyRange hs).mp hmem).2.2
    have key : ∀ c : List ℝ,
        ((pyRange 10 steps skips).foldl
          (fun acc frame =>
            let ps := fit ((((List.range steps).map (fun k => ((k : ℝ) + 1)))).take frame)
              (c.take frame)
            (acc.1.set frame ps.1, acc.2.set frame ps.2))
          (List.replicate steps 0, List.replicate steps 0)) =
        (setAll (fun frame =>
            (fit ((((List.range steps).map (fun k => ((k : ℝ) + 1)))).take frame)
              (c.take frame)).1) (pyRange 10 steps skips) (List.replicate steps 0),
         setAll (fun frame =>
            (fit ((((List.range steps).map (fun k => ((k : ℝ) + 1)))).take frame)
              (c.take frame)).2) (pyRange 10 steps skips) (List.replicate steps 0)) := by
      intro c
      exact foldl_pairSet _ _ _ _ _
    constructor
    · intro dcol hd
      simp only [anomModelsN, List.map_map, List.mem_map] at hd
      obtain ⟨c, _, hc⟩ := hd
      rw [← hc]
      simp only [Function.comp_apply, key c]
      rw [setAll_getElem?_of_not_mem _ _ _ _ hmem]
      exact List.getElem?_replicate_of_lt hsteps
    · intro acol ha
      simp only [anomModelsN, List.map_map, List.mem_map] at ha
      obtain ⟨c, _, hc⟩ := ha
      rw [← hc]
      simp only [Function.comp_apply, key c]
      rw [setAll_getElem?_of_not_mem _ _ _ _ hmem]
      exact List.getElem?_replicate_of_lt hsteps

/-- Witness for C10: stride 2 steps over window length 11
(`(11 - 10) % 2 = 1`), so both outputs of `anomModels` on a 13-point profile
are zero at index 11. -/
theorem stride_skipped_windows_zero_witness :
    (anomModels (fun _ _ => ((5 : ℝ), (2 : ℝ))) (List.replicate 13 1) 2).1[11]? =
      some 0 ∧
    (anomModels (fun _ _ => ((5 : ℝ), (2 : ℝ))) (List.replicate 13 1) 2).2[11]? =
      some 0 := by
  have h := stride_skipped_windows_zero (fun _ _ => ((5 : ℝ), (2 : ℝ)))
    (List.replicate 13 1) 13 [] 2 (by norm_num) 11 (by norm_num) (by norm_num)
  exact h.1 (by simp)

/-- Fit stub for the C1 counterexample: raises (non-convergence) exactly on a
column whose first entry is 0, succeeds elsewhere. -/
noncomputable def fitFail0 : List ℝ → List ℝ → Except PyErr (ℝ × ℝ) :=
  fun _ yd =>
    if yd.headI = 0 then Except.error PyErr.fitNonConvergence else Except.ok (6, 1)

/-- Aspect-ratio stub for the C1 counterexample: degenerate geometry (raises)
exactly on an x-column whose first entry is 0, succeeds elsewhere. -/
noncomputable def arFail0 : List ℝ → List ℝ → Except PyErr (ℝ × ℝ) :=
  fun xd _ =>
    if xd.headI = 0 then Except.error PyErr.geomDegeneracy else Except.ok (1, 0)

/-- C1: counterexample — in a 2-trajectory batch whose computation fails on
column 0 and succeeds on column 1, `anomModelN` and `aspectRatios` raise
instead of recording the failure at index 0 and returning trajectory 1's
result: the batch call as a whole fails and no partial results survive. -/
theorem batch_failure_not_recorded :
    anomModelN fitFail0 2 [[0, 0], [1, 1]] 100 =
      Except.error PyErr.fitNonConvergence ∧
    fitFail0 (((List.range 2).map (fun k => ((k : ℝ) + 1))).take 100)
      (([1, 1] : List ℝ).take 100) = Except.ok (6, 1) ∧
    aspectRatios arFail0 [[0], [1]] [[5], [6]] =
      Except.error PyErr.geomDegeneracy ∧
    arFail0 [1] [6] = Except.ok (1, 0) := by
  refine ⟨?_, ?_, ?_, ?_⟩
  · simp [anomModelN, exceptMapM, fitFail0]
  · simp [fitFail0]
  · simp [aspectRatios, exceptMapM, arFail0]
  · simp [arFail0]

/-- C1 (amended): a per-trajectory failure is not caught: if the underlying
single-trajectory computation raises for some column, `anomModelN`
(respectively `aspectRatios`) raises as a whole and returns no partial
results for the remaining trajectories. -/
theorem batch_aborts_on_column_failure
    (fit : List ℝ → List ℝ → Except PyErr (ℝ × ℝ)) (steps : ℕ)
    (cols : List (List ℝ)) (frame : ℕ)
    (ar : List ℝ → List ℝ → Except PyErr (ℝ × ℝ)) (xcols ycols : List (List ℝ))
    (c : List ℝ) (hc : c ∈ cols)
    (hfail : ∃ e, fit (((List.range steps).map (fun k => ((k : ℝ) + 1))).take frame)
        (c.take frame) = Except.error e)
    (p : List ℝ × List ℝ) (hp : p ∈ xcols.zip ycols)
    (hfail2 : ∃ e, ar p.1 p.2 = Except.error e) :
    (∃ e, anomModelN fit steps cols frame = Except.error e) ∧
    (∃ e, aspectRatios ar xcols ycols = Except.error e) := by
  constructor
  · obtain ⟨e, he⟩ := hfail
    obtain ⟨e2, h2⟩ := exceptMapM_error_of_mem
      (fun c => fit (((List.range steps).map (fun k => ((k : ℝ) + 1))).take frame)
        (c.take frame)) cols c hc e he
    refine ⟨e2, ?_⟩
    simp only [anomModelN]
    rw [h2]
  · obtain ⟨e, he⟩ := hfail2
    obtain ⟨e2, h2⟩ := exceptMapM_error_of_mem (fun p => ar p.1 p.2)
      (xcols.zip ycols) p hp e he
    refine ⟨e2, ?_⟩
    simp only [aspectRatios]
    rw [h2]

/-- Witness for C1 (amended), at the concrete failing batches of the
counterexample. -/
theorem batch_aborts_on_column_failure_witness :
    (∃ e, anomModelN fitFail0 2 [[0, 0], [1, 1]] 100 = Except.error e) ∧
    (∃ e, aspectRatios arFail0 [[0], [1]] [[5], [6]] = Except.error e) := by
  refine batch_aborts_on_column_failure fitFail0 2 [[0, 0], [1, 1]] 100
    arFail0 [[0], [1]] [[5], [6]] [0, 0] (by simp)
    ⟨PyErr.fitNonConvergence, by simp [fitFail0]⟩
    ([0], [5]) (by simp) ⟨PyErr.geomDegeneracy, by simp [arFail0]⟩

/-- `np.mean` of `f 0 .. f (n-1)`. -/
noncomputable def npmean (n : ℕ) (f : ℕ → ℝ) : ℝ := (∑ i ∈ range n, f i) / n

/-- Diagonal entry of `np.cov(x, y)` (sample covariance, ddof = 1). -/
noncomputable def covxx (n : ℕ) (x : ℕ → ℝ) : ℝ :=
  (∑ i ∈ range n, (x i - npmean n x) ^ 2) / ((n : ℝ) - 1)

/-- Off-diagonal entry of `np.cov(x, y)` (sample covariance, ddof = 1). -/
noncomputable def covxy (n : ℕ) (x y : ℕ → ℝ) : ℝ :=
  (∑ i ∈ range n, (x i - npmean n x) * (y i - npmean n y)) / ((n : ℝ) - 1)

/-- The tuple `([a1, a2, a3], eigs, vecs, K)` returned by `asym`. -/
structure AsymOut where
  a123 : List ℝ
  eigs : ℝ × ℝ
  vecs : (ℝ × ℝ) × (ℝ × ℝ)
  K : ℝ

/-- The kurtosis computed at features.py 104-109: project every point onto
`vecs[:,0]` (the first returned eigenvector `v0`), then
`np.sum((xp - np.mean(xp))**4 / np.std(xp)**4) / n` (population std). -/
noncomputable def asymK (v0 : ℝ × ℝ) (n : ℕ) (x y : ℕ → ℝ) : ℝ :=
  let xp := fun i => x i * v0.1 + y i * v0.2
  let mxp := npmean n xp
  let stdxp := Real.sqrt ((∑ i ∈ range n, (xp i - mxp) ^ 2) / n)
  (∑ i ∈ range n, (xp i - mxp) ^ 4 / stdxp ^ 4) / n

/-- `asym(x, y)` (features.py 91-111).  `np.linalg.eig` is external LAPACK
code whose contract is only to return the eigenvalue/eigenvector pairs of the
2×2 covariance matrix in some unspecified order; it is the parameter `eig`,
taking the entries `(cxx, cxy, cyy)` of the symmetric matrix and returning
`((e0, e1), (v0, v1))` with `v0 = vecs[:,0]`, `v1 = vecs[:,1]`.  The body has
no guard and no raise: it always returns normally. -/
noncomputable def asym (eig : ℝ → ℝ → ℝ → (ℝ × ℝ) × ((ℝ × ℝ) × (ℝ × ℝ)))
    (n : ℕ) (x y : ℕ → ℝ) : Except PyErr AsymOut :=
  let c := eig (covxx n x) (covxy n x y) (covxx n y)
  let e0 := c.1.1
  let e1 := c.1.2
  let a1 := (e0 ^ 2 - e1 ^ 2) ^ 2 / (e0 ^ 2 + e1 ^ 2) ^ 2
  let a2 := min e0 e1 / max e0 e1
  let a3 := - Real.log (1 - 0.5 * (e0 - e1) ^ 2 / (e0 + e1) ^ 2)
  Except.ok ⟨[a1, a2, a3], c.1, c.2, asymK c.2.1 n x y⟩

/-- `((e0, v0), (e1, v1))` is an eigen-decomposition of the symmetric matrix
`[[a, b], [b, d]]`: nonzero eigenvectors for their eigenvalues (all that the
`np.linalg.eig` contract fixes — in particular no ordering). -/
def IsEigDecomp (a b d : ℝ) (e0 e1 : ℝ) (v0 v1 : ℝ × ℝ) : Prop :=
  v0 ≠ (0, 0) ∧ v1 ≠ (0, 0) ∧
  a * v0.1 + b * v0.2 = e0 * v0.1 ∧ b * v0.1 + d * v0.2 = e0 * v0.2 ∧
  a * v1.1 + b * v1.2 = e1 * v1.1 ∧ b * v1.1 + d * v1.2 = e1 * v1.2

/-- The spec's wording of kurtosis: 4th standardized moment of a sample,
mean fourth power of the deviations over the squared variance. -/
noncomputable def stdMoment4 (n : ℕ) (f : ℕ → ℝ) : ℝ :=
  ((∑ i ∈ range n, (f i - npmean n f) ^ 4) / n) /
    ((∑ i ∈ range n, (f i - npmean n f) ^ 2) / n) ^ 2

/-- The spec's projection of the trajectory points onto a vector `v`. -/
noncomputable def projOnto (v : ℝ × ℝ) (x y : ℕ → ℝ) : ℕ → ℝ :=
  fun i => x i * v.1 + y i * v.2

/-- Trajectory `x = [0, 0, 1, 1]` (C7 counterexample data). -/
noncomputable def cx7 : ℕ → ℝ := fun i => if i ≤ 1 then 0 else 1

/-- Trajectory `y = [0, 1, 0, 1]` (C7 counterexample data). -/
noncomputable def cy7 : ℕ → ℝ := fun i => if i = 0 ∨ i = 2 then 0 else 1

/-- An eigen routine returning the (equal) eigenvalues `1/3, 1/3` with the
standard basis vectors — the correct decomposition of `[[1/3, 0], [0, 1/3]]`. -/
noncomputable def eigEq : ℝ → ℝ → ℝ → (ℝ × ℝ) × ((ℝ × ℝ) × (ℝ × ℝ)) :=
  fun _ _ _ => ((1 / 3, 1 / 3), ((1, 0), (0, 1)))

lemma covxx_cx7 : covxx 4 cx7 = 1 / 3 := by
  simp only [covxx, npmean, cx7, Finset.sum_range_succ, Finset.sum_range_zero]
  norm_num

lemma covyy_cy7 : covxx 4 cy7 = 1 / 3 := by
  simp only [covxx, npmean, cy7, Finset.sum_range_succ, Finset.sum_range_zero]
  norm_num

lemma covxy_c7 : covxy 4 cx7 cy7 = 0 := by
  simp only [covxy, npmean, cx7, cy7, Finset.sum_range_succ, Finset.sum_range_zero]
  norm_num

/-- C7: counterexample — the trajectory `x = [0,0,1,1]`, `y = [0,1,0,1]` has
covariance matrix `[[1/3, 0], [0, 1/3]]` with both eigenvalues exactly `1/3`,
yet `asym` does not return a domain error: it returns normally, with the
finite asymmetry values `[0, 1, 0]` (the asymmetry-3 formula's denominator
`(λ1 + λ2)²` is not even zero here). -/
theorem asym_equal_eigs_no_domain_error :
    IsEigDecomp (covxx 4 cx7) (covxy 4 cx7 cy7) (covxx 4 cy7)
      (1 / 3) (1 / 3) (1, 0) (0, 1) ∧
    (∃ out, asym eigEq 4 cx7 cy7 = Except.ok out ∧ out.a123 = [0, 1, 0]) := by
  constructor
  · rw [covxx_cx7, covyy_cy7, covxy_c7]
    refine ⟨by simp, by simp, by norm_num, by norm_num, by norm_num, by norm_num⟩
  · refine ⟨_, rfl, ?_⟩
    show [(((1:ℝ)/3) ^ 2 - ((1:ℝ)/3) ^ 2) ^ 2 / (((1:ℝ)/3) ^ 2 + ((1:ℝ)/3) ^ 2) ^ 2,
      min ((1:ℝ)/3) ((1:ℝ)/3) / max ((1:ℝ)/3) ((1:ℝ)/3),
      - Real.log (1 - 0.5 * (((1:ℝ)/3) - ((1:ℝ)/3)) ^ 2 / (((1:ℝ)/3) + ((1:ℝ)/3)) ^ 2)]
      = [0, 1, 0]
    have hlog : Real.log 1 = 0 := Real.log_one
    norm_num

/-- C7 (amended): `asym` performs no guard and raises nothing.  Whenever the
eigen routine reports two exactly equal eigenvalues `e` (with `e + e ≠ 0`,
i.e. a nonzero covariance matrix), `asym` returns normally and the three
asymmetry values are the finite `[0, 1, 0]` — the asymmetry-3 denominator
`(λ1 + λ2)²` is nonzero, and no domain error exists in the code. -/
theorem asym_no_guard (eig : ℝ → ℝ → ℝ → (ℝ × ℝ) × ((ℝ × ℝ) × (ℝ × ℝ)))
    (n : ℕ) (x y : ℕ → ℝ) (e : ℝ) (v0 v1 : ℝ × ℝ)
    (heig : eig (covxx n x) (covxy n x y) (covxx n y) = ((e, e), (v0, v1)))
    (hsum : e + e ≠ 0) :
    ∃ out, asym eig n x y = Except.ok out ∧ out.a123 = [0, 1, 0] := by
  have he : e ≠ 0 := fun h => hsum (by rw [h]; ring)
  refine ⟨_, rfl, ?_⟩
  show [((eig (covxx n x) (covxy n x y) (covxx n y)).1.1 ^ 2 -
        (eig (covxx n x) (covxy n x y) (covxx n y)).1.2 ^ 2) ^ 2 /
        ((eig (covxx n x) (covxy n x y) (covxx n y)).1.1 ^ 2 +
        (eig (covxx n x) (covxy n x y) (covxx n y)).1.2 ^ 2) ^ 2,
      min (eig (covxx n x) (covxy n x y) (covxx n y)).1.1
          (eig (covxx n x) (covxy n x y) (covxx n y)).1.2 /
        max (eig (covxx n x) (covxy n x y) (covxx n y)).1.1
          (eig (covxx n x) (covxy n x y) (covxx n y)).1.2,
      - Real.log (1 - 0.5 * ((eig (covxx n x) (covxy n x y) (covxx n y)).1.1 -
          (eig (covxx n x) (covxy n x y) (covxx n y)).1.2) ^ 2 /
          ((eig (covxx n x) (covxy n x y) (covxx n y)).1.1 +
          (eig (covxx n x) (covxy n x y) (covxx n y)).1.2) ^ 2)] = [0, 1, 0]
  rw [heig]
  simp only [min_self, max_self]
  rw [div_self he]
  norm_num

/-- Witness for C7 (amended) at the equal-eigenvalue trajectory of the
counterexample. -/
theorem asym_no_guard_witness :
    ∃ out, asym eigEq 4 cx7 cy7 = Except.ok out ∧ out.a123 = [0, 1, 0] := by
  exact asym_no_guard eigEq 4 cx7 cy7 (1 / 3) (1, 0) (0, 1) rfl (by norm_num)

lemma asymK_eq_stdMoment4 (v0 : ℝ × ℝ) (n : ℕ) (x y : ℕ → ℝ) :
    asymK v0 n x y = stdMoment4 n (projOnto v0 x y) := by
  simp only [asymK, stdMoment4, projOnto]
  have hnn : (0 : ℝ) ≤ (∑ i ∈ range n, ((x i * v0.1 + y i * v0.2) -
      npmean n (fun i => x i * v0.1 + y i * v0.2)) ^ 2) / n := by
    refine div_nonneg (Finset.sum_nonneg ?_) (Nat.cast_nonneg n)
    intro i _
    exact sq_nonneg _
  have hpow : Real.sqrt ((∑ i ∈ range n, ((x i * v0.1 + y i * v0.2) -
      npmean n (fun i => x i * v0.1 + y i * v0.2)) ^ 2) / n) ^ 4 =
      ((∑ i ∈ range n, ((x i * v0.1 + y i * v0.2) -
      npmean n (fun i => x i * v0.1 + y i * v0.2)) ^ 2) / n) ^ 2 := by
    have h2 : Real.sqrt ((∑ i ∈ range n, ((x i * v0.1 + y i * v0.2) -
        npmean n (fun i => x i * v0.1 + y i * v0.2)) ^ 2) / n) ^ 4 =
        (Real.sqrt ((∑ i ∈ range n, ((x i * v0.1 + y i * v0.2) -
        npmean n (fun i => x i * v0.1 + y i * v0.2)) ^ 2) / n) ^ 2) ^ 2 := by
      ring
    rw [h2, Real.sq_sqrt hnn]
  rw [hpow, ← Finset.sum_div, div_div, div_div, mul_comm]
  rfl

/-- Trajectory `x = [0, 3, 3, 0]` (C8 counterexample data). -/
noncomputable def cx8 : ℕ → ℝ := fun i => if i = 1 ∨ i = 2 then 3 else 0

/-- Trajectory `y = [-1, 0, 0, 1]` (C8 counterexample data). -/
noncomputable def cy8 : ℕ → ℝ := fun i => if i = 0 then -1 else if i = 3 then 1 else 0

/-- An eigen routine listing the smaller eigenvalue of `[[3, 0], [0, 2/3]]`
first — a legitimate answer under the `np.linalg.eig` contract, which fixes
no ordering. -/
noncomputable def eigRev : ℝ → ℝ → ℝ → (ℝ × ℝ) × ((ℝ × ℝ) × (ℝ × ℝ)) :=
  fun _ _ _ => ((2 / 3, 3), ((0, 1), (1, 0)))

lemma covxx_cx8 : covxx 4 cx8 = 3 := by
  simp only [covxx, npmean, cx8, Finset.sum_range_succ, Finset.sum_range_zero]
  norm_num

lemma covyy_cy8 : covxx 4 cy8 = 2 / 3 := by
  simp only [covxx, npmean, cy8, Finset.sum_range_succ, Finset.sum_range_zero]
  norm_num

lemma covxy_c8 : covxy 4 cx8 cy8 = 0 := by
  simp only [covxy, npmean, cx8, cy8, Finset.sum_range_succ, Finset.sum_range_zero]
  norm_num

lemma stdMoment4_minor : stdMoment4 4 (projOnto (0, 1) cx8 cy8) = 2 := by
  simp only [stdMoment4, projOnto, npmean, cx8, cy8, Finset.sum_range_succ,
    Finset.sum_range_zero]
  norm_num

lemma stdMoment4_major : stdMoment4 4 (projOnto (1, 0) cx8 cy8) = 1 := by
  simp only [stdMoment4, projOnto, npmean, cx8, cy8, Finset.sum_range_succ,
    Finset.sum_range_zero]
  norm_num

/-- C8: counterexample — the trajectory `x = [0,3,3,0]`, `y = [-1,0,0,1]` has
covariance `[[3, 0], [0, 2/3]]`, distinct eigenvalues `3` (dominant, vector
`(1,0)`) and `2/3` (vector `(0,1)`).  When the eigen routine returns the pairs
in the order `(2/3, (0,1))`, `(3, (1,0))` — legitimate, since `np.linalg.eig`
fixes no order — `asym` computes `K = 2`, the moment of the projection onto
the MINOR eigenvector, whereas the 4th standardized moment of the projection
onto the dominant eigenvector is `1`.  The claimed order-independence fails. -/
theorem asym_K_depends_on_eig_order :
    covxx 4 cx8 = 3 ∧ covxy 4 cx8 cy8 = 0 ∧ covxx 4 cy8 = 2 / 3 ∧
    IsEigDecomp 3 0 (2 / 3) (2 / 3) 3 (0, 1) (1, 0) ∧
    ((2 : ℝ) / 3) ≠ 3 ∧
    (∃ out, asym eigRev 4 cx8 cy8 = Except.ok out ∧ out.K = 2) ∧
    stdMoment4 4 (projOnto (1, 0) cx8 cy8) = 1 := by
  refine ⟨covxx_cx8, covxy_c8, covyy_cy8, ?_, by norm_num, ?_, stdMoment4_major⟩
  · exact ⟨by simp, by simp, by norm_num, by norm_num, by norm_num, by norm_num⟩
  · refine ⟨_, rfl, ?_⟩
    show asymK ((0 : ℝ), (1 : ℝ)) 4 cx8 cy8 = 2
    rw [asymK_eq_stdMoment4]
    exact stdMoment4_minor

/-- C8 (amended): the kurtosis `K` returned by `asym` is the 4th standardized
moment of the projection onto the FIRST eigenvector the decomposition returns
(`vecs[:,0]`); it therefore equals the dominant-eigenvector moment of the
claim exactly when the routine happens to list the larger eigenvalue first. -/
theorem asym_K_first_eigvec (eig : ℝ → ℝ → ℝ → (ℝ × ℝ) × ((ℝ × ℝ) × (ℝ × ℝ)))
    (n : ℕ) (x y : ℕ → ℝ) (e0 e1 : ℝ) (v0 v1 : ℝ × ℝ)
    (heig : eig (covxx n x) (covxy n x y) (covxx n y) = ((e0, e1), (v0, v1)))
    (hdom : e1 < e0) :
    ∃ out, asym eig n x y = Except.ok out ∧
      out.K = stdMoment4 n (projOnto (if e1 < e0 then v0 else v1) x y) := by
  refine ⟨_, rfl, ?_⟩
  show asymK (eig (covxx n x) (covxy n x y) (covxx n y)).2.1 n x y = _
  rw [heig, if_pos hdom]
  exact asymK_eq_stdMoment4 v0 n x y

/-- Witness for C8 (amended): an eigen routine listing the dominant pair of
`[[3, 0], [0, 2/3]]` first makes `K` the dominant-projection moment. -/
theorem asym_K_first_eigvec_witness :
    ∃ out, asym (fun _ _ _ => (((3 : ℝ), (2 : ℝ) / 3), (((1 : ℝ), (0 : ℝ)),
        ((0 : ℝ), (1 : ℝ))))) 4 cx8 cy8 = Except.ok out ∧
      out.K = stdMoment4 4
        (projOnto (if (2 : ℝ) / 3 < 3 then ((1 : ℝ), (0 : ℝ)) else (0, 1)) cx8 cy8) := by
  exact asym_K_first_eigvec _ 4 cx8 cy8 3 (2 / 3) (1, 0) (0, 1) rfl (by norm_num)

/-- The `i`-th step of a trajectory as a complex number, to reason about the
Euclidean step lengths summed by `straight`. -/
noncomputable def stepC (x y : ℕ → ℝ) (i : ℕ) : ℂ :=
  ⟨x (i + 1) - x i, y (i + 1) - y i⟩

lemma norm_stepC (x y : ℕ → ℝ) (i : ℕ) :
    ‖stepC x y i‖ = Real.sqrt (sqDisp x y i) := by
  rw [Complex.norm_eq_abs, Complex.abs_apply, stepC, Complex.normSq_mk, sqDisp]
  congr 1
  ring

lemma sum_stepC (x y : ℕ → ℝ) (n : ℕ) :
    ∑ i ∈ range n, stepC x y i = ⟨x n - x 0, y n - y 0⟩ := by
  apply Complex.ext
  · rw [Complex.re_sum]
    simpa only [stepC] using Finset.sum_range_sub x n
  · rw [Complex.im_sum]
    simpa only [stepC] using Finset.sum_range_sub y n

lemma netD_eq_norm_sum (x y : ℕ → ℝ) (n : ℕ) :
    Real.sqrt ((x n - x 0) ^ 2 + (y n - y 0) ^ 2) = ‖∑ i ∈ range n, stepC x y i‖ := by
  rw [sum_stepC, Complex.norm_eq_abs, Complex.abs_apply, Complex.normSq_mk]
  congr 1
  ring

lemma sameRay_sum {f : ℕ → ℂ} (v : ℂ) (s : Finset ℕ)
    (h : ∀ j ∈ s, SameRay ℝ v (f j)) : SameRay ℝ v (∑ j ∈ s, f j) := by
  induction s using Finset.induction_on with
  | empty =>
    rw [Finset.sum_empty]
    exact SameRay.zero_right v
  | insert ha ih =>
    rw [Finset.sum_insert ha]
    exact SameRay.add_right (h _ (Finset.mem_insert_self _ _))
      (ih fun j hj => h j (Finset.mem_insert_of_mem hj))

lemma norm_sum_eq_of_pairwise {f : ℕ → ℂ} (s : Finset ℕ)
    (h : ∀ i ∈ s, ∀ j ∈ s, SameRay ℝ (f i) (f j)) :
    ‖∑ i ∈ s, f i‖ = ∑ i ∈ s, ‖f i‖ := by
  induction s using Finset.induction_on with
  | empty => simp
  | @insert a s ha ih =>
    rw [Finset.sum_insert ha, Finset.sum_insert ha]
    have hray : SameRay ℝ (f a) (∑ j ∈ s, f j) :=
      sameRay_sum (f a) s fun j hj =>
        h a (Finset.mem_insert_self _ _) j (Finset.mem_insert_of_mem hj)
    rw [hray.norm_add, ih fun i hi j hj =>
      h i (Finset.mem_insert_of_mem hi) j (Finset.mem_insert_of_mem hj)]

lemma pairwise_of_norm_sum_eq {f : ℕ → ℂ} (s : Finset ℕ)
    (heq : ‖∑ i ∈ s, f i‖ = ∑ i ∈ s, ‖f i‖) :
    ∀ i ∈ s, ∀ j ∈ s, SameRay ℝ (f i) (f j) := by
  intro i hi j hj
  rcases eq_or_ne i j with rfl | hij
  · exact SameRay.rfl
  · have hjmem : j ∈ s.erase i := Finset.mem_erase.mpr ⟨fun h => hij h.symm, hj⟩
    have hsplit1 : ∑ k ∈ s, f k = f i + ∑ k ∈ s.erase i, f k :=
      (Finset.add_sum_erase s f hi).symm
    have hsplit2 : ∑ k ∈ s.erase i, f k = f j + ∑ k ∈ (s.erase i).erase j, f k :=
      (Finset.add_sum_erase _ f hjmem).symm
    have hsplit1n : ∑ k ∈ s, ‖f k‖ = ‖f i‖ + ∑ k ∈ s.erase i, ‖f k‖ :=
      (Finset.add_sum_erase s (fun k => ‖f k‖) hi).symm
    have hsplit2n : ∑ k ∈ s.erase i, ‖f k‖ =
        ‖f j‖ + ∑ k ∈ (s.erase i).erase j, ‖f k‖ :=
      (Finset.add_sum_erase _ (fun k => ‖f k‖) hjmem).symm
    have h1 : ‖∑ k ∈ s, f k‖ ≤
        ‖f i + f j‖ + ‖∑ k ∈ (s.erase i).erase j, f k‖ := by
      rw [hsplit1, hsplit2, ← add_assoc]
      exact norm_add_le _ _
    have h2 : ‖∑ k ∈ (s.erase i).erase j, f k‖ ≤
        ∑ k ∈ (s.erase i).erase j, ‖f k‖ := norm_sum_le _ _
    have h3 : ‖f i + f j‖ ≤ ‖f i‖ + ‖f j‖ := norm_add_le _ _
    have h4 : ‖f i + f j‖ = ‖f i‖ + ‖f j‖ := by
      rw [hsplit1n, hsplit2n] at heq
      linarith
    exact sameRay_iff_norm_add.mpr h4

lemma line_sqDisp (i : ℕ) :
    sqDisp (fun k => (k : ℝ)) (fun _ => 0) i = 1 := by
  simp only [sqDisp]
  push_cast
  ring

lemma line_straight :
    straight 10 (fun k => (k : ℝ)) (fun _ => 0) = Except.ok (some 1) := by
  have htot : ∑ i ∈ range 10,
      Real.sqrt (sqDisp (fun k => (k : ℝ)) (fun _ => 0) i) = 10 := by
    have : ∀ i ∈ range 10,
        Real.sqrt (sqDisp (fun k => (k : ℝ)) (fun _ => 0) i) = 1 := by
      intro i _
      rw [line_sqDisp, Real.sqrt_one]
    rw [Finset.sum_congr rfl this]
    simp
  have hnet : Real.sqrt ((((10 : ℕ) : ℝ)  - ((0 : ℕ) : ℝ)) ^ 2 +
      ((0 : ℝ) - 0) ^ 2) = 10 := by
    have h100 : (((10 : ℕ) : ℝ) - ((0 : ℕ) : ℝ)) ^ 2 + ((0 : ℝ) - 0) ^ 2 =
        (10 : ℝ) ^ 2 := by
      push_cast
      ring
    rw [h100, Real.sqrt_sq (by norm_num : (0 : ℝ) ≤ 10)]
  simp only [straight, htot, hnet, npdiv]
  norm_num

lemma line_efficiency :
    efficiency 10 (fun k => (k : ℝ)) (fun _ => 0) = Except.ok (some 10) := by
  have htot : ∑ i ∈ range 10, sqDisp (fun k => (k : ℝ)) (fun _ => 0) i = 10 := by
    rw [Finset.sum_congr rfl (fun i _ => line_sqDisp i)]
    simp
  have hnet : (((10 : ℕ) : ℝ) - ((0 : ℕ) : ℝ)) ^ 2 + ((0 : ℝ) - 0) ^ 2 = 100 := by
    push_cast
    ring
  simp only [efficiency, htot, hnet, npdiv]
  norm_num

/-- C5: counterexample — for the straight line from (0,0) to (10,0) over 11
equally spaced frames, `efficiency` returns 10.0, not the claimed 1.0, and in
particular its value is not in (0, 1]; `straight` does return 1.0 there. -/
theorem efficiency_line_is_ten :
    efficiency 10 (fun k => (k : ℝ)) (fun _ => 0) = Except.ok (some 10) ∧
    straight 10 (fun k => (k : ℝ)) (fun _ => 0) = Except.ok (some 1) ∧
    ¬ ((10 : ℝ) ≤ 1) :=
  ⟨line_efficiency, line_straight, by norm_num⟩

/-- C5 (amended): whenever the total path length is nonzero, `straight`
returns a value `r` with `r ≤ 1`; `r > 0` when the endpoints differ (in
particular `0 < r ≤ 1` for non-degenerate monotonic paths); and `r = 1`
exactly when all steps lie pairwise on a common ray — a straight, monotone
path.  On the 11-frame line from (0,0) to (10,0), `straight` returns 1.0
while `efficiency` returns 10.0: the efficiency quotient (which lacks a
step-count normalization) is positive but not bounded by 1. -/
theorem straight_in_unit_interval_iff_line :
    (∀ (n : ℕ) (x y : ℕ → ℝ),
      (∑ i ∈ range n, Real.sqrt (sqDisp x y i)) ≠ 0 →
      ∃ r, straight n x y = Except.ok (some r) ∧ r ≤ 1 ∧
        ((x n - x 0) ^ 2 + (y n - y 0) ^ 2 ≠ 0 → 0 < r) ∧
        (r = 1 ↔ ∀ i ∈ range n, ∀ j ∈ range n,
          SameRay ℝ (stepC x y i) (stepC x y j))) ∧
    straight 10 (fun k => (k : ℝ)) (fun _ => 0) = Except.ok (some 1) ∧
    efficiency 10 (fun k => (k : ℝ)) (fun _ => 0) = Except.ok (some 10) := by
  refine ⟨?_, line_straight, line_efficiency⟩
  intro n x y htot
  have htotnn : 0 ≤ ∑ i ∈ range n, Real.sqrt (sqDisp x y i) :=
    Finset.sum_nonneg fun i _ => Real.sqrt_nonneg _
  have htotpos : 0 < ∑ i ∈ range n, Real.sqrt (sqDisp x y i) :=
    lt_of_le_of_ne htotnn (Ne.symm htot)
  have hnorm : ∀ i ∈ range n, ‖stepC x y i‖ = Real.sqrt (sqDisp x y i) :=
    fun i _ => norm_stepC x y i
  have hle : Real.sqrt ((x n - x 0) ^ 2 + (y n - y 0) ^ 2) ≤
      ∑ i ∈ range n, Real.sqrt (sqDisp x y i) := by
    rw [netD_eq_norm_sum, ← Finset.sum_congr rfl hnorm]
    exact norm_sum_le _ _
  refine ⟨Real.sqrt ((x n - x 0) ^ 2 + (y n - y 0) ^ 2) /
      (∑ i ∈ range n, Real.sqrt (sqDisp x y i)), ?_, ?_, ?_, ?_⟩
  · simp only [straight, npdiv, if_neg htot]
  · exact div_le_one_of_le₀ hle htotnn
  · intro hnet
    have hnetnn : 0 ≤ (x n - x 0) ^ 2 + (y n - y 0) ^ 2 := by
      have := sq_nonneg (x n - x 0)
      have := sq_nonneg (y n - y 0)
      linarith
    have hpos : 0 < (x n - x 0) ^ 2 + (y n - y 0) ^ 2 :=
      lt_of_le_of_ne hnetnn (Ne.symm hnet)
    exact div_pos (Real.sqrt_pos.mpr hpos) htotpos
  · rw [div_eq_one_iff_eq htot]
    constructor
    · intro h1
      refine pairwise_of_norm_sum_eq (range n) ?_
      rw [← netD_eq_norm_sum, h1]
      exact Finset.sum_congr rfl fun i hi => (hnorm i hi).symm
    · intro hray
      rw [netD_eq_norm_sum, norm_sum_eq_of_pairwise (range n) hray]
      exact Finset.sum_congr rfl hnorm

/-- Witness for C5 (amended) at the 11-frame straight line: the total path
length is the nonzero 10, and all conclusions hold there. -/
theorem straight_in_unit_interval_iff_line_witness :
    ∃ r, straight 10 (fun k => (k : ℝ)) (fun _ => 0) = Except.ok (some r) ∧
      r ≤ 1 ∧
      ((((10 : ℕ) : ℝ) - ((0 : ℕ) : ℝ)) ^ 2 + ((0 : ℝ) - 0) ^ 2 ≠ 0 → 0 < r) ∧
      (r = 1 ↔ ∀ i ∈ range 10, ∀ j ∈ range 10,
        SameRay ℝ (stepC (fun k => (k : ℝ)) (fun _ => 0) i)
          (stepC (fun k => (k : ℝ)) (fun _ => 0) j)) := by
  refine straight_in_unit_interval_iff_line.1 10 (fun k => (k : ℝ)) (fun _ => 0) ?_
  have : ∀ i ∈ range 10,
      Real.sqrt (sqDisp (fun k => (k : ℝ)) (fun _ => 0) i) = 1 := by
    intro i _
    rw [line_sqDisp, Real.sqrt_one]
  rw [Finset.sum_congr rfl this]
  simp

end Diffpy
